import Mathlib

/-
Shallow embedding of the distributed COCO detection-metric aggregation engine
of the repository (src/yolort/data/coco_eval.py), together with theorems that
settle the specification claims about it.

Modelling conventions:
* tensors are embedded along the axis the code manipulates: the per-image
  evaluation tensor (dims category x area-range x image) becomes a list of
  image columns, since the code only concatenates and selects along axis 2;
* numeric box and score values are embedded as rationals (exact arithmetic);
* python dicts keyed by image id become association lists with python dict
  semantics (insertion order kept, later writes overwrite in place);
* fallible python code (list indexing, raise) returns Except.
-/

namespace Yolort

/-! ### Boxes and box_convert (torchvision.ops.box_convert) -/

/-- A four-field box record.  Interpreted as (x1, y1, x2, y2) in corner
format or (x, y, w, h) in min-corner plus size format. -/
structure Box where
  c0 : ℚ
  c1 : ℚ
  c2 : ℚ
  c3 : ℚ
deriving DecidableEq, Repr

/-- torchvision box_convert with in_fmt xyxy, out_fmt xywh:
subtracts the min corner from the max corner. -/
def boxXyxyToXywh (b : Box) : Box :=
  ⟨b.c0, b.c1, b.c2 - b.c0, b.c3 - b.c1⟩

/-- torchvision box_convert with in_fmt xywh, out_fmt xyxy:
adds the size to the min corner. -/
def boxXywhToXyxy (b : Box) : Box :=
  ⟨b.c0, b.c1, b.c0 + b.c2, b.c1 + b.c3⟩

/-! ### Predictions and detection records -/

/-- One model prediction for one image: parallel lists of boxes in corner
format, scores and labels in the local contiguous class index space. -/
structure Prediction where
  boxes : List Box
  scores : List ℚ
  labels : List Nat
deriving DecidableEq, Repr

/-- One formatted COCO detection record, as built by
prepare_for_coco_detection. -/
structure DetectionRecord where
  image_id : Int
  category_id : Int
  bbox : Box
  score : ℚ
deriving DecidableEq, Repr

/-- Errors the prepare path can raise: the ValueError for an unknown iou
type (coco_eval.py line 171) and a python IndexError from list indexing. -/
inductive PrepError where
  | valueError (iou_type : String)
  | indexError
deriving DecidableEq, Repr

/-- One entry of the list comprehension in prepare_for_coco_detection
(coco_eval.py lines 184-194): for index k it reads boxes[k], scores[k],
labels[k] and contiguous_to_json_category[labels[k]]; any out-of-range
index is a python IndexError. -/
def mkDetectionRecord (cats : List Int) (original_id : Int) (p : Prediction)
    (k : Nat) : Except PrepError DetectionRecord :=
  match p.boxes[k]?, p.scores[k]?, p.labels[k]? with
  | some box, some score, some label =>
    match cats[label]? with
    | some cat =>
      .ok { image_id := original_id, category_id := cat,
            bbox := boxXyxyToXywh box, score := score }
    | none => .error .indexError
  | _, _, _ => .error .indexError

/-- An Except-valued map over a list, stopping at the first error, as a
python list comprehension does. -/
def exceptMap {β γ δ : Type} (f : β → Except δ γ) : List β → Except δ (List γ)
  | [] => .ok []
  | b :: bs => do
    let c ← f b
    let cs ← exceptMap f bs
    pure (c :: cs)

/-- The per-image body of prepare_for_coco_detection: enumerate(boxes)
drives index k. -/
def prepareImage (cats : List Int) (original_id : Int) (p : Prediction) :
    Except PrepError (List DetectionRecord) :=
  exceptMap (mkDetectionRecord cats original_id p) (List.range p.boxes.length)

/-- prepare_for_coco_detection (coco_eval.py lines 173-195).  The
predictions argument is the records dict as an association list in
iteration order; a `none` prediction models an empty prediction mapping,
which the `if len(prediction) == 0: continue` line skips. -/
def prepare_for_coco_detection (cats : List Int) :
    List (Int × Option Prediction) → Except PrepError (List DetectionRecord)
  | [] => .ok []
  | (original_id, pred) :: rest => do
    let rs ← match pred with
      | none => pure []
      | some p => prepareImage cats original_id p
    let rest' ← prepare_for_coco_detection cats rest
    pure (rs ++ rest')

/-- COCOEvaluator.prepare (coco_eval.py lines 167-171): dispatch on the iou
type, raising ValueError for anything other than bbox. -/
def prepare (cats : List Int) (iou_type : String)
    (predictions : List (Int × Option Prediction)) :
    Except PrepError (List DetectionRecord) :=
  if iou_type = "bbox" then prepare_for_coco_detection cats predictions
  else .error (.valueError iou_type)

/-! ### The distributed merge (coco_eval.py lines 198-217) -/

/-- np.unique on a list of ids: the sorted list of distinct values.
List.dedup keeps first occurrences; insertionSort (stable) then orders
them ascending. -/
def sortedUnique (l : List Int) : List Int :=
  List.insertionSort (· ≤ ·) l.dedup

/-- The merge function (coco_eval.py lines 198-217) applied to the gathered
per-process data.  all_img_ids and all_eval_imgs are what all_gather
returns: one image-id list and one evaluation tensor (embedded as its list
of image columns) per process.  np.unique with return_index=True yields the
sorted distinct ids together with the first-occurrence index of each in the
concatenation; selecting those indices from the concatenated tensor is
embedded as List.indexOf (first occurrence) followed by indexing, which is
partial, hence Option. -/
def merge {α : Type} (all_img_ids : List (List Int))
    (all_eval_imgs : List (List α)) : List Int × List (Option α) :=
  let merged_img_ids := all_img_ids.flatten
  let merged_eval_imgs := all_eval_imgs.flatten
  let uniq := sortedUnique merged_img_ids
  (uniq, uniq.map (fun v => merged_eval_imgs[merged_img_ids.indexOf v]?))

/-- merge viewed as a function of the per-process (image ids, tensor)
pairs, for stating process-order properties. -/
def mergeProcs {α : Type} (ps : List (List Int × List α)) :
    List Int × List (Option α) :=
  merge (ps.map Prod.fst) (ps.map Prod.snd)

/-- All (image id, image column) pairs contributed by the processes in
concatenation order. -/
def procPairs {α : Type} (ps : List (List Int × List α)) :
    List (Int × α) :=
  (ps.map (fun p => p.1.zip p.2)).flatten

/-! ### Python float values and the metrics report -/

/-- The values the metrics dict can hold: ordinary floats (exact rationals
here) or NaN, which float("nan") produces. -/
inductive PyFloat where
  | num (q : ℚ)
  | nan
deriving DecidableEq, Repr

/-- Python float addition: NaN propagates. -/
def PyFloat.add : PyFloat → PyFloat → PyFloat
  | num a, num b => num (a + b)
  | _, _ => nan

/-- np.isfinite on a value of this domain (no infinities are produced). -/
def PyFloat.isfinite : PyFloat → Bool
  | num _ => true
  | nan => false

/-- python sum over a list of float values. -/
def pySum (l : List PyFloat) : PyFloat :=
  l.foldl PyFloat.add (.num 0)

/-- The five-dimensional precision array stored by pycocotools accumulate:
dims (iou threshold, recall point, class, area range, max dets), entries
are floats with -1 marking an invalid slice. -/
structure PrecisionArray where
  iouCount : Nat
  recallCount : Nat
  clsCount : Nat
  areaCount : Nat
  maxDetsCount : Nat
  val : Nat → Nat → Nat → Nat → Nat → ℚ

/-- The observable state of the pycocotools COCOeval object that
derive_coco_results reads: the stats vector set by summarize and the
eval mapping set by accumulate (none models the initial empty dict, whose
precision lookup would raise KeyError). -/
structure COCOevalState where
  stats : List ℚ
  evalPrecision : Option PrecisionArray

/-- Errors derive_coco_results can raise: KeyError from a dict lookup,
IndexError from stats indexing, AssertionError from the class-name count
check at line 140. -/
inductive DeriveError where
  | keyError
  | indexError
  | assertionError
deriving DecidableEq, Repr

/-- The metric-name table at coco_eval.py lines 115-119, a python dict
lookup on the iou type (KeyError when absent, modelled as none). -/
def metricNames (iou_type : String) : Option (List String) :=
  if iou_type = "bbox" then some ["AP", "AP50", "AP75", "APs", "APm", "APl"]
  else if iou_type = "segm" then some ["AP", "AP50", "AP75", "APs", "APm", "APl"]
  else if iou_type = "keypoints" then some ["AP", "AP50", "AP75", "APm", "APl"]
  else none

/-- Logged message texts (logging only; contents abbreviated). -/
def evalResultsLog : String := "Evaluation results"

/-- Warning logged when the metric sum is not finite. -/
def nanWarnLog : String := "Some metrics cannot be computed and is shown as NaN."

/-- Warning logged on the coco_eval-is-None branch. -/
def noPredictionsLog : String := "No predictions from the model!"

/-- Info log heading the per-category AP table. -/
def perCategoryLog : String := "Per-category AP"

/-- One entry of the standard-metrics dict comprehension
(coco_eval.py lines 126-129): stats[idx] scaled by 100 when non-negative,
NaN otherwise. -/
def statEntry (stats : List ℚ) (im : Nat × String) :
    Except DeriveError (String × PyFloat) :=
  match stats[im.1]? with
  | some s => .ok (im.2, if s ≥ 0 then PyFloat.num (s * 100) else PyFloat.nan)
  | none => .error DeriveError.indexError

/-- One per-category AP entry (coco_eval.py lines 143-149): the mean of
the valid precision slice for the class at area-range index 0 and the last
max-dets index, NaN when the slice has no valid entry. -/
def perCategoryAP (pa : PrecisionArray) (iname : Nat × String) :
    String × PyFloat :=
  let vals := (List.range pa.iouCount).flatMap (fun t =>
    (List.range pa.recallCount).map (fun r =>
      pa.val t r iname.1 0 (pa.maxDetsCount - 1)))
  let filt := vals.filter (fun q => -1 < q)
  let ap := if filt.length = 0 then PyFloat.nan
            else PyFloat.num (filt.sum / (filt.length : ℚ) * 100)
  (String.append "AP-" iname.2, ap)

/-- The log list of derive_coco_results after the finiteness check: the
info log always, plus the NaN warning when the metric sum is not finite
(coco_eval.py lines 130-133). -/
def resultLogs (results : List (String × PyFloat)) : List String :=
  if (pySum (results.map Prod.snd)).isfinite then [evalResultsLog]
  else [evalResultsLog] ++ [nanWarnLog]

/-- derive_coco_results (coco_eval.py lines 100-165).  Returns the results
mapping as an association list in insertion order, together with the list
of logged messages; logging is the only side effect and never a failure. -/
def derive_coco_results (iou_type : String) (coco_eval : Option COCOevalState)
    (class_names : Option (List String)) :
    Except DeriveError (List (String × PyFloat) × List String) :=
  match metricNames iou_type with
  | none => .error DeriveError.keyError
  | some metrics =>
    match coco_eval with
    | none =>
      .ok (metrics.map (fun m => (m, PyFloat.nan)), [noPredictionsLog])
    | some ev =>
      match exceptMap (statEntry ev.stats) metrics.enum with
      | .error e => .error e
      | .ok results =>
        let logs1 := resultLogs results
        match class_names with
        | none => .ok (results, logs1)
        | some names =>
          if names.length ≤ 1 then .ok (results, logs1)
          else
            match ev.evalPrecision with
            | none => .error DeriveError.keyError
            | some pa =>
              if names.length = pa.clsCount then
                .ok (results ++ names.enum.map (perCategoryAP pa),
                     logs1 ++ [perCategoryLog])
              else .error DeriveError.assertionError

/-- Modelled from the spec: the stats vector that pycocotools accumulate
and summarize (external collaborators, not part of this repository) leave
behind when no detections were ever observed.  Spec section 4.5: a slice
with no valid entries yields the undefined marker, which summarize encodes
as -1, and derive_coco_results maps every negative entry to NaN. -/
def statsNoPredictions (n : Nat) : List ℚ :=
  List.replicate n (-1)

/-! ### The annotation store and the evaluator state -/

/-- The COCO ground-truth store, reduced to the pieces the evaluator
reads: the category-id list getCatIds returns, and the rest of its data
(for mutation-independence statements). -/
structure COCO where
  catIds : List Int
  imgData : List Int
deriving DecidableEq, Repr

/-- COCO.getCatIds: the ordered category-id list of the store. -/
def COCO.getCatIds (c : COCO) : List Int := c.catIds

/-- The coco_gt constructor argument: a str or PosixPath, an in-memory
COCO handle (an address into the caller heap), or any other type. -/
inductive CocoGtInput where
  | path (p : String)
  | handle (addr : Nat)
  | other
deriving DecidableEq, Repr

/-- The caller heap holding in-memory COCO objects, addressed by Nat. -/
structure Heap where
  store : Nat → COCO

/-- External mutation of the COCO object at one address. -/
def Heap.mutate (h : Heap) (a : Nat) (c : COCO) : Heap :=
  ⟨fun x => if x = a then c else h.store x⟩

/-- The COCOEvaluator state (coco_eval.py lines 28-62), generic over the
type of one image column of the evaluation tensor. -/
structure COCOEvaluator (ε : Type) where
  coco_gt : COCO
  contiguous_to_json_category : List Int
  iou_type : String
  coco_eval : COCOevalState
  img_ids : List Int
  eval_imgs : List (List ε)

/-- COCOEvaluator construction (coco_eval.py lines 32-62): a path builds a
fresh store from the file; an in-memory handle is deep-copied, so the
evaluator keeps the VALUE stored at the address at construction time, not
the address; any other input raises NotImplementedError.  The category
remapping table is read once here via getCatIds.  The fresh COCOeval
object starts with stats = [] and an empty eval dict. -/
def COCOEvaluator.mk0 {ε : Type} (loadFile : String → COCO) (h : Heap)
    (coco_gt : CocoGtInput) (iou_type : String) :
    Except String (COCOEvaluator ε) :=
  match coco_gt with
  | .path p =>
    let gt := loadFile p
    Except.ok { coco_gt := gt, contiguous_to_json_category := gt.getCatIds,
                iou_type := iou_type,
                coco_eval := { stats := [], evalPrecision := none },
                img_ids := [], eval_imgs := [] }
  | .handle a =>
    let gt := h.store a
    Except.ok { coco_gt := gt, contiguous_to_json_category := gt.getCatIds,
                iou_type := iou_type,
                coco_eval := { stats := [], evalPrecision := none },
                img_ids := [], eval_imgs := [] }
  | .other => Except.error "NotImplementedError"

/-- A world pairing the caller heap with a constructed evaluator, to state
frame properties of external mutation. -/
structure World (ε : Type) where
  heap : Heap
  evaluator : COCOEvaluator ε

/-- The caller mutates its ground-truth object after construction: only
the heap changes. -/
def World.mutateStore {ε : Type} (w : World ε) (a : Nat) (c : COCO) :
    World ε :=
  { w with heap := w.heap.mutate a c }

/-! ### Python dict semantics and update -/

/-- Python dict write on an association list: overwrite in place when the
key exists (keeping its position), append otherwise. -/
def dictInsert {π : Type} (d : List (Int × π)) (k : Int) (v : π) :
    List (Int × π) :=
  if d.any (fun p => p.1 == k) then
    d.map (fun p => if p.1 == k then (k, v) else p)
  else d ++ [(k, v)]

/-- Python dict read on an association list. -/
def dictLookup {π : Type} (d : List (Int × π)) (k : Int) : Option π :=
  (d.find? (fun p => p.1 == k)).map Prod.snd

/-- The records dict comprehension of update (coco_eval.py line 65):
zip truncates to the shorter input, and a repeated image id silently
overwrites, so the last paired prediction wins. -/
def buildRecords {π : Type} (targets : List Int) (preds : List π) :
    List (Int × π) :=
  (targets.zip preds).foldl (fun d tp => dictInsert d tp.1 tp.2) []

/-- COCOEvaluator.update (coco_eval.py lines 64-81).  evaluateFn models
COCO.loadRes plus the per-image evaluation (pycocotools internals external
to src), as a deterministic function of the image ids of this call and the
formatted detection records; its output tensor is appended to eval_imgs.
The unique image ids of this call extend the running img_ids list. -/
def COCOEvaluator.update {ε : Type}
    (evaluateFn : List Int → List DetectionRecord → List ε)
    (st : COCOEvaluator ε) (preds : List (Option Prediction))
    (targets : List Int) : Except PrepError (COCOEvaluator ε) := do
  let records := buildRecords targets preds
  let img_ids := sortedUnique (records.map Prod.fst)
  let results ← prepare st.contiguous_to_json_category st.iou_type records
  let eval_imgs := evaluateFn img_ids results
  Except.ok { st with img_ids := st.img_ids ++ img_ids,
                      eval_imgs := st.eval_imgs ++ [eval_imgs] }

/-- COCOEvaluator.compute (coco_eval.py lines 83-98): concatenate the
accumulated eval_imgs along the image axis, merge across processes
(create_common_coco_eval), run accumulate and summarize, then derive the
results.  gatherIds and gatherImgs model the all_gather collective, and
accumulateSummarize models pycocotools accumulate plus summarize; all
three are external collaborators, modelled as deterministic functions of
their inputs.  Returns the evaluator state after the call together with
the derived results. -/
def COCOEvaluator.compute {ε : Type}
    (gatherIds : List Int → List (List Int))
    (gatherImgs : List ε → List (List ε))
    (accumulateSummarize : List Int → List (Option ε) → COCOevalState)
    (st : COCOEvaluator ε) :
    COCOEvaluator ε ×
      Except DeriveError (List (String × PyFloat) × List String) :=
  let eval_imgs := st.eval_imgs.flatten
  let m := merge (gatherIds st.img_ids) (gatherImgs eval_imgs)
  let ce := accumulateSummarize m.1 m.2
  let st' := { st with coco_eval := ce }
  (st', derive_coco_results st.iou_type (some ce) none)

/-! ### Concrete fixtures used by witnesses -/

/-- A concrete annotation store. -/
def wCoco : COCO := { catIds := [1, 2, 3], imgData := [7] }

/-- Another concrete annotation store, used as the mutated value. -/
def wCoco2 : COCO := { catIds := [9], imgData := [] }

/-- A concrete caller heap holding wCoco at every address. -/
def wHeap : Heap := ⟨fun _ => wCoco⟩

/-- The evaluator that construction from wHeap address 0 yields. -/
def wEvaluatorH : COCOEvaluator Int :=
  { coco_gt := wCoco, contiguous_to_json_category := [1, 2, 3],
    iou_type := "bbox", coco_eval := { stats := [], evalPrecision := none },
    img_ids := [], eval_imgs := [] }

/-- A concrete external evaluation function used by witnesses. -/
def wEvalFn : List Int → List DetectionRecord → List Int := fun _ _ => []

/-- A concrete evaluator state with one accumulated update. -/
def wEvaluator : COCOEvaluator Int :=
  { coco_gt := wCoco, contiguous_to_json_category := [1, 2, 3],
    iou_type := "bbox", coco_eval := { stats := [], evalPrecision := none },
    img_ids := [5], eval_imgs := [[0]] }

/-! ### Helper lemmas -/

/-- mkDetectionRecord can only fail with an IndexError. -/
theorem mkDetectionRecord_error_eq {cats : List Int} {oid : Int}
    {p : Prediction} {k : Nat} {e : PrepError}
    (h : mkDetectionRecord cats oid p k = .error e) : e = .indexError := by
  unfold mkDetectionRecord at h
  rcases hb : p.boxes[k]? with _ | box <;> rw [hb] at h <;>
    rcases hs : p.scores[k]? with _ | score <;> rw [hs] at h <;>
      rcases hl : p.labels[k]? with _ | label <;> rw [hl] at h <;>
        simp at h <;> try exact h.symm
  rcases hc : cats[label]? with _ | cat <;> rw [hc] at h <;> simp at h
  exact h.symm

/-- Bind on an Except error short-circuits. -/
theorem exceptBind_error {δ β γ : Type} (e : δ) (f : β → Except δ γ) :
    (Except.error e >>= f : Except δ γ) = Except.error e := rfl

/-- Bind on an Except success applies the continuation. -/
theorem exceptBind_ok {δ β γ : Type} (b : β) (f : β → Except δ γ) :
    (Except.ok b >>= f : Except δ γ) = f b := rfl

/-- Pure in the Except monad is never an error. -/
theorem exceptPure_ne_error {δ γ : Type} (c : γ) (e : δ) :
    (pure c : Except δ γ) ≠ Except.error e := fun h => Except.noConfusion h

/-- Bind after pure in the Except monad applies the continuation. -/
theorem exceptBind_pure {δ β γ : Type} (b : β) (f : β → Except δ γ) :
    ((pure b : Except δ β) >>= f) = f b := rfl

/-- An exceptMap call fails only through one of the element calls. -/
theorem exceptMap_error_exists {β γ δ : Type} :
    ∀ {l : List β} {f : β → Except δ γ} {e : δ},
      exceptMap f l = .error e → ∃ k ∈ l, f k = .error e := by
  intro l
  induction l with
  | nil => intro f e h; simp [exceptMap] at h
  | cons hd tl ih =>
    intro f e h
    rw [exceptMap] at h
    rcases hf : f hd with e1 | v <;> rw [hf] at h
    · rw [exceptBind_error] at h
      injection h with h1
      subst h1
      exact ⟨hd, List.mem_cons_self hd tl, hf⟩
    · rw [exceptBind_ok] at h
      rcases ht : exceptMap f tl with e2 | vs <;> rw [ht] at h
      · rw [exceptBind_error] at h
        injection h with h1
        subst h1
        obtain ⟨k, hk, hke⟩ := ih (f := f) ht
        exact ⟨k, List.mem_cons_of_mem hd hk, hke⟩
      · rw [exceptBind_ok] at h
        exact absurd h (exceptPure_ne_error _ _)

/-- prepareImage can only fail with an IndexError. -/
theorem prepareImage_error_eq {cats : List Int} {oid : Int} {p : Prediction}
    {e : PrepError} (h : prepareImage cats oid p = .error e) :
    e = .indexError := by
  obtain ⟨k, _, hk⟩ := exceptMap_error_exists h
  exact mkDetectionRecord_error_eq hk

/-- prepare_for_coco_detection can only fail with an IndexError, never with
the unsupported-iou-type ValueError. -/
theorem prepare_for_coco_detection_error_eq {cats : List Int} :
    ∀ {preds : List (Int × Option Prediction)} {e : PrepError},
      prepare_for_coco_detection cats preds = .error e → e = .indexError := by
  intro preds
  induction preds with
  | nil => intro e h; simp [prepare_for_coco_detection] at h
  | cons hd tl ih =>
    obtain ⟨oid, op⟩ := hd
    intro e h
    rcases op with _ | p
    · rw [prepare_for_coco_detection] at h
      rw [exceptBind_pure] at h
      beta_reduce at h
      rcases ht : prepare_for_coco_detection cats tl with e2 | vs <;> rw [ht] at h
      · rw [exceptBind_error] at h
        injection h with h1
        subst h1
        exact ih ht
      · rw [exceptBind_ok] at h
        exact absurd h (exceptPure_ne_error _ _)
    · rw [prepare_for_coco_detection] at h
      rcases hp : prepareImage cats oid p with e1 | rs <;> rw [hp] at h
      · rw [exceptBind_error] at h
        injection h with h1
        subst h1
        exact prepareImage_error_eq hp
      · rw [exceptBind_ok] at h
        beta_reduce at h
        rcases ht : prepare_for_coco_detection cats tl with e2 | vs <;> rw [ht] at h
        · rw [exceptBind_error] at h
          injection h with h1
          subst h1
          exact ih ht
        · rw [exceptBind_ok] at h
          exact absurd h (exceptPure_ne_error _ _)

/-! ### Claims -/

/-- Claim C3: the formatter converts a corner-format (xyxy) box to xywh by
subtracting the min corner from the max corner, sending [10,10,30,40] to
[10,10,20,30], and converting the xywh box back to corner format recovers
the original corners exactly. -/
theorem claim3_box_convert_roundtrip :
    boxXyxyToXywh ⟨10, 10, 30, 40⟩ = ⟨10, 10, 20, 30⟩ ∧
    ∀ b : Box, boxXywhToXyxy (boxXyxyToXywh b) = b := by
  refine ⟨by norm_num [boxXyxyToXywh], ?_⟩
  rintro ⟨x1, y1, x2, y2⟩
  simp [boxXyxyToXywh, boxXywhToXyxy]

/-- Claim C7: for every iou type other than bbox, prepare fails immediately
with the unsupported-iou-type ValueError; for iou type bbox it never raises
this error. -/
theorem claim7_prepare_unsupported_iou_type (cats : List Int)
    (iou_type : String) (predictions : List (Int × Option Prediction))
    (h : iou_type ≠ "bbox") :
    prepare cats iou_type predictions = .error (.valueError iou_type) ∧
    ∀ e, prepare cats "bbox" predictions = .error e →
      ∀ s, e ≠ PrepError.valueError s := by
  constructor
  · simp [prepare, h]
  · intro e he s
    rw [prepare, if_pos rfl] at he
    rw [prepare_for_coco_detection_error_eq he]
    intro hcontra
    exact PrepError.noConfusion hcontra

/-- Witness for claim C7 at a concrete unsupported iou type. -/
theorem claim7_witness :
    prepare [] "segm" [] = .error (.valueError "segm") :=
  (claim7_prepare_unsupported_iou_type [] "segm" [] (by decide)).1

/-- exceptMap succeeds with the pointwise map when every element call
succeeds. -/
theorem exceptMap_ok_of_forall {β γ δ : Type} {f : β → Except δ γ}
    {g : β → γ} :
    ∀ {l : List β}, (∀ b ∈ l, f b = .ok (g b)) →
      exceptMap f l = .ok (l.map g) := by
  intro l
  induction l with
  | nil => intro _; rfl
  | cons hd tl ih =>
    intro hall
    rw [exceptMap, hall hd (List.mem_cons_self hd tl), exceptBind_ok]
    rw [ih (fun b hb => hall b (List.mem_cons_of_mem hd hb)), exceptBind_ok]
    rfl

/-- A successful exceptMap relates input and output pointwise. -/
theorem exceptMap_ok_forall₂ {β γ δ : Type} :
    ∀ {l : List β} {f : β → Except δ γ} {rs : List γ},
      exceptMap f l = .ok rs →
      List.Forall₂ (fun b c => f b = .ok c) l rs := by
  intro l
  induction l with
  | nil =>
    intro f rs h
    rw [exceptMap] at h
    injection h with h1
    rw [← h1]
    exact List.Forall₂.nil
  | cons hd tl ih =>
    intro f rs h
    rw [exceptMap] at h
    rcases hf : f hd with e1 | v <;> rw [hf] at h
    · rw [exceptBind_error] at h
      exact absurd h (by simp)
    · rw [exceptBind_ok] at h
      rcases ht : exceptMap f tl with e2 | vs <;> rw [ht] at h
      · rw [exceptBind_error] at h
        exact absurd h (by simp)
      · rw [exceptBind_ok] at h
        have h2 : Except.ok (v :: vs) = Except.ok rs := h
        injection h2 with h1
        rw [← h1]
        exact List.Forall₂.cons hf (ih ht)

/-- Mapping both sides of a pointwise relation that intertwines the two
projections gives equal lists. -/
theorem map_eq_of_forall₂ {β γ η : Type} {R : β → γ → Prop} {g1 : β → η}
    {g2 : γ → η} (hg : ∀ b c, R b c → g2 c = g1 b) :
    ∀ {l : List β} {rs : List γ}, List.Forall₂ R l rs →
      rs.map g2 = l.map g1 := by
  intro l rs h
  induction h with
  | nil => rfl
  | cons hbc _ ih => simp [ih, hg _ _ hbc]

/-- A successful statEntry keeps the metric name as the key. -/
theorem statEntry_ok_fst {stats : List ℚ} {im : Nat × String}
    {c : String × PyFloat} (h : statEntry stats im = .ok c) : c.1 = im.2 := by
  unfold statEntry at h
  rcases hs : stats[im.1]? with _ | s <;> rw [hs] at h
  · exact absurd h (by simp)
  · injection h with h1
    rw [← h1]

/-- When the stats entry is negative, statEntry yields NaN. -/
theorem statEntry_nan {stats : List ℚ} (hneg : ∀ q ∈ stats, q < 0)
    {i : Nat} (hi : i < stats.length) (name : String) :
    statEntry stats (i, name) = .ok (name, PyFloat.nan) := by
  unfold statEntry
  rw [List.getElem?_eq_getElem hi]
  have hlt : stats[i] < 0 := hneg _ (List.getElem_mem hi)
  simp [not_le.mpr hlt]

/-- Adding anything to NaN stays NaN. -/
theorem pyAdd_nan_left (x : PyFloat) :
    PyFloat.add PyFloat.nan x = PyFloat.nan := by
  cases x <;> rfl

/-- A fold of python float addition that meets NaN ends in NaN. -/
theorem foldl_pyAdd_nan :
    ∀ (l : List PyFloat) (acc : PyFloat), PyFloat.nan ∈ l →
      l.foldl PyFloat.add acc = PyFloat.nan := by
  intro l
  induction l with
  | nil => intro acc h; exact absurd h (List.not_mem_nil _)
  | cons hd tl ih =>
    intro acc h
    rcases List.mem_cons.mp h with rfl | hmem
    · have hnan : PyFloat.add acc PyFloat.nan = PyFloat.nan := by cases acc <;> rfl
      rw [List.foldl_cons, hnan]
      clear h ih
      induction tl with
      | nil => rfl
      | cons hd2 tl2 ih2 => rw [List.foldl_cons, pyAdd_nan_left]; exact ih2
    · exact ih _ hmem

/-- The sum of a list of float values containing NaN is NaN. -/
theorem pySum_nan {l : List PyFloat} (h : PyFloat.nan ∈ l) :
    pySum l = PyFloat.nan :=
  foldl_pyAdd_nan l _ h

/-- Claim C10: when derive_coco_results is given a class-names list of
length zero or one, the returned mapping contains only the standard scalar
metrics and no per-category AP entry, exactly as when no class names are
supplied. -/
theorem claim10_short_class_names (iou_type : String)
    (coco_eval : Option COCOevalState) (names : List String)
    (h : names.length ≤ 1) :
    derive_coco_results iou_type coco_eval (some names) =
      derive_coco_results iou_type coco_eval none ∧
    ∀ res logs,
      derive_coco_results iou_type coco_eval none = .ok (res, logs) →
      ∃ metrics, metricNames iou_type = some metrics ∧
        res.map Prod.fst = metrics := by
  constructor
  · cases hm : metricNames iou_type with
    | none => simp [derive_coco_results, hm]
    | some metrics =>
      cases coco_eval with
      | none => simp [derive_coco_results, hm]
      | some ev =>
        cases hr : exceptMap (statEntry ev.stats) metrics.enum with
        | error e => simp [derive_coco_results, hm, hr]
        | ok results => simp [derive_coco_results, hm, hr, h]
  · intro res logs hok
    cases hm : metricNames iou_type with
    | none =>
      have hd : derive_coco_results iou_type coco_eval none =
          .error DeriveError.keyError := by
        simp [derive_coco_results, hm]
      rw [hd] at hok
      exact Except.noConfusion hok
    | some metrics =>
      refine ⟨metrics, rfl, ?_⟩
      cases coco_eval with
      | none =>
        simp only [derive_coco_results, hm] at hok
        injection hok with h1
        rw [Prod.mk.injEq] at h1
        obtain ⟨h2, h3⟩ := h1
        rw [← h2, List.map_map]
        have hcomp : (Prod.fst ∘ fun m : String => (m, PyFloat.nan)) = id := rfl
        rw [hcomp, List.map_id]
      | some ev =>
        cases hr : exceptMap (statEntry ev.stats) metrics.enum with
        | error e =>
          have hd : derive_coco_results iou_type (some ev) none =
              .error e := by
            simp [derive_coco_results, hm, hr]
          rw [hd] at hok
          exact Except.noConfusion hok
        | ok results =>
          simp only [derive_coco_results, hm, hr] at hok
          injection hok with h1
          rw [Prod.mk.injEq] at h1
          obtain ⟨h2, h3⟩ := h1
          rw [← h2]
          have hmap := @map_eq_of_forall₂ _ _ _ _ Prod.snd Prod.fst
            (fun b c hbc => statEntry_ok_fst hbc) _ _
            (exceptMap_ok_forall₂ hr)
          rw [hmap, List.enum_eq_enumFrom, List.enumFrom_map_snd]

/-- Witness for claim C10 at a concrete state and one class name. -/
theorem claim10_witness :
    derive_coco_results "bbox" none (some ["cat"]) =
      derive_coco_results "bbox" none none ∧
    ∀ res logs, derive_coco_results "bbox" none none = .ok (res, logs) →
      ∃ metrics, metricNames "bbox" = some metrics ∧
        res.map Prod.fst = metrics :=
  claim10_short_class_names "bbox" none ["cat"] (by decide)

/-- Claim C5: if the accumulator never received any prediction, the stats
vector summarize leaves behind is all negative, every AP-family metric in
the returned mapping is NaN, the report is produced without raising, and
the non-finite metric sum only adds a logged warning. -/
theorem claim5_no_predictions_all_nan (ev : COCOevalState)
    (hlen : 6 ≤ ev.stats.length) (hneg : ∀ q ∈ ev.stats, q < 0) :
    ∃ res logs,
      derive_coco_results "bbox" (some ev) none = .ok (res, logs) ∧
      res.map Prod.fst = ["AP", "AP50", "AP75", "APs", "APm", "APl"] ∧
      (∀ pr ∈ res, pr.2 = PyFloat.nan) ∧
      nanWarnLog ∈ logs := by
  have hm : metricNames "bbox" =
      some ["AP", "AP50", "AP75", "APs", "APm", "APl"] := rfl
  have hall : ∀ im ∈ (["AP", "AP50", "AP75", "APs", "APm", "APl"] :
      List String).enum,
      statEntry ev.stats im = .ok ((fun im => (im.2, PyFloat.nan)) im) := by
    intro im him
    have hget := List.mem_enum_iff_getElem?.mp him
    have hi6 : im.1 < 6 := by
      have := List.getElem?_eq_some_iff.mp hget
      simpa using this.1
    obtain ⟨i, name⟩ := im
    exact statEntry_nan hneg (lt_of_lt_of_le hi6 hlen) name
  have hr := exceptMap_ok_of_forall hall
  refine ⟨(["AP", "AP50", "AP75", "APs", "APm", "APl"] :
      List String).enum.map (fun im => (im.2, PyFloat.nan)),
    resultLogs ((["AP", "AP50", "AP75", "APs", "APm", "APl"] :
      List String).enum.map (fun im => (im.2, PyFloat.nan))), ?_, ?_, ?_, ?_⟩
  · simp only [derive_coco_results, hm, hr]
  · decide
  · decide
  · have hnanmem : PyFloat.nan ∈
        ((["AP", "AP50", "AP75", "APs", "APm", "APl"] :
          List String).enum.map (fun im => (im.2, PyFloat.nan))).map Prod.snd := by
      decide
    rw [resultLogs, pySum_nan hnanmem]
    decide

/-- Witness for claim C5: the modelled no-predictions stats vector of
pycocotools (12 entries, all -1) satisfies the hypotheses. -/
theorem claim5_witness :
    ∃ res logs,
      derive_coco_results "bbox"
        (some { stats := statsNoPredictions 12, evalPrecision := none })
        none = .ok (res, logs) ∧
      res.map Prod.fst = ["AP", "AP50", "AP75", "APs", "APm", "APl"] ∧
      (∀ pr ∈ res, pr.2 = PyFloat.nan) ∧
      nanWarnLog ∈ logs :=
  claim5_no_predictions_all_nan
    { stats := statsNoPredictions 12, evalPrecision := none }
    (by decide)
    (by intro q hq; simp [statsNoPredictions] at hq; simp [hq])

/-! ### Lemmas about sortedUnique and first occurrences -/

/-- sortedUnique yields a duplicate-free list. -/
theorem sortedUnique_nodup (l : List Int) : (sortedUnique l).Nodup :=
  (List.perm_insertionSort (· ≤ ·) l.dedup).nodup_iff.mpr (List.nodup_dedup l)

/-- sortedUnique yields an ascending list (weakly). -/
theorem sortedUnique_sorted_le (l : List Int) :
    List.Sorted (· ≤ ·) (sortedUnique l) :=
  List.sorted_insertionSort (· ≤ ·) l.dedup

/-- sortedUnique yields a strictly ascending list. -/
theorem sortedUnique_sorted_lt (l : List Int) :
    List.Sorted (· < ·) (sortedUnique l) :=
  (sortedUnique_sorted_le l).lt_of_le (sortedUnique_nodup l)

/-- sortedUnique keeps exactly the members of the input. -/
theorem mem_sortedUnique {l : List Int} {v : Int} :
    v ∈ sortedUnique l ↔ v ∈ l := by
  rw [sortedUnique, List.mem_insertionSort, List.mem_dedup]

/-- Entries strictly before indexOf differ from the sought value. -/
theorem getElem?_ne_of_lt_indexOf {a : Int} :
    ∀ {l : List Int} {j : Nat}, j < l.indexOf a → l[j]? ≠ some a := by
  intro l
  induction l with
  | nil => intro j hj; simp [List.indexOf] at hj
  | cons b t ih =>
    intro j hj
    by_cases hba : b = a
    · rw [List.indexOf_cons_eq t hba] at hj
      exact absurd hj (Nat.not_lt_zero j)
    · rw [List.indexOf_cons_ne t hba] at hj
      cases j with
      | zero =>
        simp only [List.getElem?_cons_zero]
        intro hc
        injection hc with hc1
        exact hba hc1
      | succ j2 =>
        rw [List.getElem?_cons_succ]
        exact ih (Nat.lt_of_succ_lt_succ hj)

/-- Claim C1: merge returns a tensor whose image axis contains each image
id exactly once, sorted ascending, and the record kept for each id is the
one at the first occurrence of that id in the concatenation order of the
process inputs. -/
theorem claim1_merge_sorted_dedup_first_occurrence {α : Type}
    (all_img_ids : List (List Int)) (all_eval_imgs : List (List α))
    (hlen : all_img_ids.flatten.length = all_eval_imgs.flatten.length) :
    List.Sorted (· < ·) (merge all_img_ids all_eval_imgs).1 ∧
    (∀ v, v ∈ (merge all_img_ids all_eval_imgs).1 ↔
      v ∈ all_img_ids.flatten) ∧
    (∀ v ∈ (merge all_img_ids all_eval_imgs).1,
      (merge all_img_ids all_eval_imgs).1.count v = 1) ∧
    (∀ (k : Nat) (v : Int), (merge all_img_ids all_eval_imgs).1[k]? = some v →
      ∃ i : Nat, all_img_ids.flatten[i]? = some v ∧
        (∀ j < i, all_img_ids.flatten[j]? ≠ some v) ∧
        ∃ c : α, all_eval_imgs.flatten[i]? = some c ∧
          (merge all_img_ids all_eval_imgs).2[k]? = some (some c)) := by
  refine ⟨sortedUnique_sorted_lt _, fun v => mem_sortedUnique,
    fun v hv => List.count_eq_one_of_mem (sortedUnique_nodup _) hv, ?_⟩
  intro k v hk
  have hvmem : v ∈ sortedUnique all_img_ids.flatten :=
    List.getElem?_mem hk
  have hvmem2 : v ∈ all_img_ids.flatten := mem_sortedUnique.mp hvmem
  have hidx : all_img_ids.flatten.indexOf v < all_img_ids.flatten.length :=
    List.indexOf_lt_length.mpr hvmem2
  refine ⟨all_img_ids.flatten.indexOf v, ?_, ?_, ?_⟩
  · rw [List.getElem?_eq_getElem hidx, List.getElem_indexOf hidx]
  · intro j hj
    exact getElem?_ne_of_lt_indexOf hj
  · have hidx2 : all_img_ids.flatten.indexOf v < all_eval_imgs.flatten.length :=
      hlen ▸ hidx
    refine ⟨all_eval_imgs.flatten[all_img_ids.flatten.indexOf v],
      List.getElem?_eq_getElem hidx2, ?_⟩
    have hk2 : (sortedUnique all_img_ids.flatten)[k]? = some v := hk
    show (List.map _ (sortedUnique all_img_ids.flatten))[k]? = _
    rw [List.getElem?_map, hk2]
    simp only [Option.map_some']
    rw [List.getElem?_eq_getElem hidx2]

/-- Witness for claim C1 at concrete two-process input with an overlap. -/
theorem claim1_witness :
    List.Sorted (· < ·)
      (merge [[3, 1], [1]] ([[10, 20], [30]] : List (List Int))).1 ∧
    (merge [[3, 1], [1]] ([[10, 20], [30]] : List (List Int))).2 =
      [some 20, some 10] := by
  constructor
  · exact (claim1_merge_sorted_dedup_first_occurrence
      [[3, 1], [1]] [[10, 20], [30]] (by decide)).1
  · decide

/-! ### Permutation lemmas for the merge -/

/-- Flattening permuted lists of lists gives permuted flat lists. -/
theorem perm_flatten_of_perm {β : Type} {l1 l2 : List (List β)}
    (h : l1.Perm l2) : l1.flatten.Perm l2.flatten := by
  induction h with
  | nil => exact List.Perm.refl _
  | cons x _ ih => simpa using ih.append_left x
  | swap x y l =>
    rw [List.flatten_cons, List.flatten_cons, List.flatten_cons,
        List.flatten_cons, ← List.append_assoc, ← List.append_assoc]
    exact List.perm_append_comm.append_right _
  | trans _ _ ih1 ih2 => exact ih1.trans ih2

/-- sortedUnique only depends on the multiset of the input. -/
theorem sortedUnique_perm_eq {l l' : List Int} (h : l.Perm l') :
    sortedUnique l = sortedUnique l' :=
  List.eq_of_perm_of_sorted
    ((List.perm_insertionSort _ _).trans
      (h.dedup.trans (List.perm_insertionSort _ _).symm))
    (sortedUnique_sorted_le l) (sortedUnique_sorted_le l')

/-- When every process has as many ids as columns, so do the
concatenations. -/
theorem flatten_length_eq_of_align {α : Type} :
    ∀ {ps : List (List Int × List α)},
      (∀ p ∈ ps, p.1.length = p.2.length) →
      (ps.map Prod.fst).flatten.length = (ps.map Prod.snd).flatten.length := by
  intro ps
  induction ps with
  | nil => intro _; rfl
  | cons hd tl ih =>
    intro h
    simp only [List.map_cons, List.flatten_cons, List.length_append]
    rw [h hd (List.mem_cons_self hd tl),
        ih (fun p hp => h p (List.mem_cons_of_mem hd hp))]

/-- When every process has as many ids as columns, zipping the
concatenated ids with the concatenated columns gives exactly the
process-contributed pairs. -/
theorem zip_flatten_eq_procPairs {α : Type} :
    ∀ {ps : List (List Int × List α)},
      (∀ p ∈ ps, p.1.length = p.2.length) →
      ((ps.map Prod.fst).flatten).zip ((ps.map Prod.snd).flatten) =
        procPairs ps := by
  intro ps
  induction ps with
  | nil => intro _; rfl
  | cons hd tl ih =>
    intro h
    simp only [List.map_cons, List.flatten_cons, procPairs]
    rw [List.zip_append (h hd (List.mem_cons_self hd tl))]
    have ih2 := ih (fun p hp => h p (List.mem_cons_of_mem hd hp))
    simp only [procPairs] at ih2
    rw [ih2]

/-- The pair of entries at a common index belongs to the zip. -/
theorem mem_zip_getElem {β γ : Type} {l1 : List β} {l2 : List γ} {i : Nat}
    (h1 : i < l1.length) (h2 : i < l2.length) :
    (l1[i], l2[i]) ∈ l1.zip l2 :=
  List.getElem?_mem (List.getElem?_zip_eq_some.mpr
    ⟨List.getElem?_eq_getElem h1, List.getElem?_eq_getElem h2⟩)

/-- Claim C2 counterexample: two processes that both evaluated image id 42
with different match records; swapping the process order permutes the
inputs but changes the per-cell content of the merged tensor, so merge is
not invariant under every permutation of the process order. -/
theorem claim2_counterexample :
    List.Perm ([([42], [0]), ([42], [1])] : List (List Int × List Int))
      [([42], [1]), ([42], [0])] ∧
    mergeProcs ([([42], [0]), ([42], [1])] : List (List Int × List Int)) ≠
      mergeProcs [([42], [1]), ([42], [0])] := by
  refine ⟨List.Perm.swap _ _ _, ?_⟩
  decide

/-- Claim C2 amended: for every collection of per-process inputs and every
permutation of the process order, merge yields a result with an identical
sorted image-id axis (unconditionally); the per-cell content is also
identical provided all processes agree on the record of every shared image
id (in particular whenever no image id is shared), while for a disagreeing
shared id the first-occurrence record wins, which depends on the process
order. -/
theorem claim2_merge_process_order {α : Type}
    (ps qs : List (List Int × List α)) (hperm : ps.Perm qs) :
    (mergeProcs ps).1 = (mergeProcs qs).1 ∧
    ((∀ p ∈ ps, p.1.length = p.2.length) →
      (∀ a ∈ procPairs ps, ∀ b ∈ procPairs ps, a.1 = b.1 → a.2 = b.2) →
      mergeProcs ps = mergeProcs qs) := by
  constructor
  · show sortedUnique ((ps.map Prod.fst).flatten) =
      sortedUnique ((qs.map Prod.fst).flatten)
    exact sortedUnique_perm_eq (perm_flatten_of_perm (hperm.map Prod.fst))
  intro halign hfun
  have halign_q : ∀ p ∈ qs, p.1.length = p.2.length :=
    fun p hp => halign p (hperm.mem_iff.mpr hp)
  have hids : ((ps.map Prod.fst).flatten).Perm ((qs.map Prod.fst).flatten) :=
    perm_flatten_of_perm (hperm.map Prod.fst)
  have hpairs : (procPairs ps).Perm (procPairs qs) :=
    perm_flatten_of_perm (hperm.map (fun p => p.1.zip p.2))
  have hu : sortedUnique ((ps.map Prod.fst).flatten) =
      sortedUnique ((qs.map Prod.fst).flatten) := sortedUnique_perm_eq hids
  have hlP := flatten_length_eq_of_align halign
  have hlQ := flatten_length_eq_of_align halign_q
  show ((sortedUnique ((ps.map Prod.fst).flatten)),
      (sortedUnique ((ps.map Prod.fst).flatten)).map _) =
    ((sortedUnique ((qs.map Prod.fst).flatten)),
      (sortedUnique ((qs.map Prod.fst).flatten)).map _)
  rw [← hu]
  refine congrArg (Prod.mk _) ?_
  apply List.map_congr_left
  intro v hv
  have hvP : v ∈ (ps.map Prod.fst).flatten := mem_sortedUnique.mp hv
  have hvQ : v ∈ (qs.map Prod.fst).flatten := hids.mem_iff.mp hvP
  have hiP : (ps.map Prod.fst).flatten.indexOf v <
      (ps.map Prod.fst).flatten.length := List.indexOf_lt_length.mpr hvP
  have hiQ : (qs.map Prod.fst).flatten.indexOf v <
      (qs.map Prod.fst).flatten.length := List.indexOf_lt_length.mpr hvQ
  have hiP2 : (ps.map Prod.fst).flatten.indexOf v <
      (ps.map Prod.snd).flatten.length := hlP ▸ hiP
  have hiQ2 : (qs.map Prod.fst).flatten.indexOf v <
      (qs.map Prod.snd).flatten.length := hlQ ▸ hiQ
  have hmemP : ((ps.map Prod.fst).flatten[(ps.map Prod.fst).flatten.indexOf v],
      (ps.map Prod.snd).flatten[(ps.map Prod.fst).flatten.indexOf v]) ∈
      procPairs ps := by
    rw [← zip_flatten_eq_procPairs halign]
    exact mem_zip_getElem hiP hiP2
  have hmemQ : ((qs.map Prod.fst).flatten[(qs.map Prod.fst).flatten.indexOf v],
      (qs.map Prod.snd).flatten[(qs.map Prod.fst).flatten.indexOf v]) ∈
      procPairs ps := by
    refine hpairs.mem_iff.mpr ?_
    rw [← zip_flatten_eq_procPairs halign_q]
    exact mem_zip_getElem hiQ hiQ2
  have hgP : (ps.map Prod.fst).flatten[(ps.map Prod.fst).flatten.indexOf v]
      = v := List.getElem_indexOf hiP
  have hgQ : (qs.map Prod.fst).flatten[(qs.map Prod.fst).flatten.indexOf v]
      = v := List.getElem_indexOf hiQ
  have heq : (ps.map Prod.snd).flatten[(ps.map Prod.fst).flatten.indexOf v]
      = (qs.map Prod.snd).flatten[(qs.map Prod.fst).flatten.indexOf v] := by
    refine hfun _ hmemP _ hmemQ ?_
    simp only [hgP, hgQ]
  rw [List.getElem?_eq_getElem hiP2, List.getElem?_eq_getElem hiQ2, heq]

/-- Witness for the amended claim C2: the image-id axis agrees even for
the swapped processes that disagree on the record of shared id 42, and the
whole result agrees for swapped disjoint process inputs. -/
theorem claim2_witness :
    (mergeProcs ([([42], [0]), ([42], [1])] :
      List (List Int × List Int))).1 =
      (mergeProcs [([42], [1]), ([42], [0])]).1 ∧
    mergeProcs ([([1], [5]), ([2], [6])] : List (List Int × List Int)) =
      mergeProcs [([2], [6]), ([1], [5])] :=
  ⟨(claim2_merge_process_order _ _ (List.Perm.swap _ _ _)).1,
   (claim2_merge_process_order _ _ (List.Perm.swap _ _ _)).2
     (by decide) (by decide)⟩

/-! ### Claims about construction and compute -/

/-- Claim C8: constructing the evaluator from an in-memory handle stores a
deep copy (the heap value as of construction time), so a later mutation of
the caller object changes only the heap and leaves the evaluator state
untouched; a path input builds a fresh store from the file; any other
input type fails at construction. -/
theorem claim8_deepcopy_frame {ε : Type} (loadFile : String → COCO)
    (h : Heap) (iou_type : String) :
    (∀ a ev, COCOEvaluator.mk0 (ε := ε) loadFile h (.handle a) iou_type =
        .ok ev →
      ev.coco_gt = h.store a ∧
      ∀ c : COCO, (World.mutateStore ⟨h, ev⟩ a c).evaluator = ev ∧
        (World.mutateStore ⟨h, ev⟩ a c).heap.store a = c) ∧
    (∀ p ev, COCOEvaluator.mk0 (ε := ε) loadFile h (.path p) iou_type =
        .ok ev → ev.coco_gt = loadFile p) ∧
    (∀ ev : COCOEvaluator ε,
      COCOEvaluator.mk0 loadFile h .other iou_type ≠ .ok ev) := by
  refine ⟨?_, ?_, ?_⟩
  · intro a ev hok
    simp only [COCOEvaluator.mk0] at hok
    injection hok with h1
    refine ⟨by rw [← h1], ?_⟩
    intro c
    exact ⟨rfl, by simp [World.mutateStore, Heap.mutate]⟩
  · intro p ev hok
    simp only [COCOEvaluator.mk0] at hok
    injection hok with h1
    rw [← h1]
  · intro ev hok
    simp only [COCOEvaluator.mk0] at hok
    exact Except.noConfusion hok

/-- Witness for claim C8 at a concrete heap, address and mutation. -/
theorem claim8_witness :
    (COCOEvaluator.mk0 (fun _ => wCoco2) wHeap (.handle 0) "bbox" =
      .ok wEvaluatorH) ∧
    wEvaluatorH.coco_gt = wHeap.store 0 ∧
    (World.mutateStore ⟨wHeap, wEvaluatorH⟩ 0 wCoco2).evaluator =
      wEvaluatorH ∧
    (World.mutateStore ⟨wHeap, wEvaluatorH⟩ 0 wCoco2).heap.store 0 =
      wCoco2 := by
  have hok : COCOEvaluator.mk0 (fun _ => wCoco2) wHeap (.handle 0) "bbox" =
      .ok wEvaluatorH := rfl
  have hmain := (claim8_deepcopy_frame (fun _ => wCoco2) wHeap "bbox").1
    0 wEvaluatorH hok
  exact ⟨hok, hmain.1, (hmain.2 wCoco2).1, (hmain.2 wCoco2).2⟩

/-- Claim C6: compute derives its scalar metrics as a pure function of the
already-accumulated state: it leaves img_ids and eval_imgs untouched, and
calling it again on the state it returned yields the identical state and
identical (bit-identical in the embedding: equal) metrics. -/
theorem claim6_compute_idempotent {ε : Type}
    (gatherIds : List Int → List (List Int))
    (gatherImgs : List ε → List (List ε))
    (accumulateSummarize : List Int → List (Option ε) → COCOevalState)
    (st : COCOEvaluator ε) (_hne : st.eval_imgs ≠ []) :
    (COCOEvaluator.compute gatherIds gatherImgs accumulateSummarize
      st).1.img_ids = st.img_ids ∧
    (COCOEvaluator.compute gatherIds gatherImgs accumulateSummarize
      st).1.eval_imgs = st.eval_imgs ∧
    COCOEvaluator.compute gatherIds gatherImgs accumulateSummarize
        (COCOEvaluator.compute gatherIds gatherImgs accumulateSummarize
          st).1 =
      COCOEvaluator.compute gatherIds gatherImgs accumulateSummarize st :=
  ⟨rfl, rfl, rfl⟩

/-- Witness for claim C6 at a concrete accumulated state and concrete
external collectives. -/
theorem claim6_witness :
    COCOEvaluator.compute (fun l => [l]) (fun c => [c])
        (fun _ _ => { stats := [], evalPrecision := none })
        (COCOEvaluator.compute (fun l => [l]) (fun c => [c])
          (fun _ _ => { stats := [], evalPrecision := none }) wEvaluator).1 =
      COCOEvaluator.compute (fun l => [l]) (fun c => [c])
        (fun _ _ => { stats := [], evalPrecision := none }) wEvaluator :=
  (claim6_compute_idempotent (fun l => [l]) (fun c => [c])
    (fun _ _ => { stats := [], evalPrecision := none }) wEvaluator
    (by decide)).2.2

/-! ### The formatter and the category remapping table -/

/-- A pointwise relation lets each output element be traced to an input
element. -/
theorem forall₂_mem_right {β γ : Type} {R : β → γ → Prop} :
    ∀ {l : List β} {rs : List γ}, List.Forall₂ R l rs →
      ∀ c ∈ rs, ∃ b ∈ l, R b c := by
  intro l rs h
  induction h with
  | nil => intro c hc; exact absurd hc (List.not_mem_nil c)
  | cons hbc _ ih =>
    intro c hc
    rcases List.mem_cons.mp hc with rfl | hmem
    · exact ⟨_, List.mem_cons_self _ _, hbc⟩
    · obtain ⟨b, hb, hR⟩ := ih c hmem
      exact ⟨b, List.mem_cons_of_mem _ hb, hR⟩

/-- Successful mkDetectionRecord calls are fully characterized: the record
is the xywh-converted box, the score, and the category at the label index
of the remapping table. -/
theorem mkDetectionRecord_ok_spec {cats : List Int} {oid : Int}
    {p : Prediction} {k : Nat} {r : DetectionRecord}
    (h : mkDetectionRecord cats oid p k = .ok r) :
    r.image_id = oid ∧
    (∃ box, p.boxes[k]? = some box ∧ r.bbox = boxXyxyToXywh box) ∧
    (∃ s, p.scores[k]? = some s ∧ r.score = s) ∧
    (∃ label, p.labels[k]? = some label ∧
      cats[label]? = some r.category_id) := by
  unfold mkDetectionRecord at h
  rcases hb : p.boxes[k]? with _ | box <;> rw [hb] at h
  · exact absurd h (by simp)
  rcases hs : p.scores[k]? with _ | s <;> rw [hs] at h
  · exact absurd h (by simp)
  rcases hl : p.labels[k]? with _ | label <;> rw [hl] at h
  · exact absurd h (by simp)
  dsimp only at h
  rcases hc : cats[label]? with _ | cat <;> rw [hc] at h
  · exact absurd h (by simp)
  injection h with h1
  subst h1
  exact ⟨rfl, ⟨box, rfl, rfl⟩, ⟨s, rfl, rfl⟩, ⟨label, rfl, hc⟩⟩

/-- Every record of a successful prepare_for_coco_detection run comes from
one image and one in-range detection index of that image. -/
theorem prepare_for_coco_detection_ok_mem {cats : List Int} :
    ∀ {preds : List (Int × Option Prediction)}
      {results : List DetectionRecord},
      prepare_for_coco_detection cats preds = .ok results →
      ∀ r ∈ results, ∃ oid p, (oid, some p) ∈ preds ∧
        ∃ k, mkDetectionRecord cats oid p k = .ok r := by
  intro preds
  induction preds with
  | nil =>
    intro results h r hr
    rw [prepare_for_coco_detection] at h
    injection h with h1
    rw [← h1] at hr
    exact absurd hr (List.not_mem_nil r)
  | cons hd tl ih =>
    obtain ⟨oid, op⟩ := hd
    intro results h r hr
    rcases op with _ | p
    · rw [prepare_for_coco_detection, exceptBind_pure] at h
      beta_reduce at h
      rcases ht : prepare_for_coco_detection cats tl with e2 | vs <;>
        rw [ht] at h
      · rw [exceptBind_error] at h
        exact absurd h (by simp)
      · rw [exceptBind_ok] at h
        have h2 : Except.ok (([] : List DetectionRecord) ++ vs) =
            Except.ok results := h
        injection h2 with h1
        rw [← h1, List.nil_append] at hr
        obtain ⟨oid2, p2, hmem, hk⟩ := ih ht r hr
        exact ⟨oid2, p2, List.mem_cons_of_mem _ hmem, hk⟩
    · rw [prepare_for_coco_detection] at h
      rcases hp : prepareImage cats oid p with e1 | rs <;> rw [hp] at h
      · rw [exceptBind_error] at h
        exact absurd h (by simp)
      · rw [exceptBind_ok] at h
        beta_reduce at h
        rcases ht : prepare_for_coco_detection cats tl with e2 | vs <;>
          rw [ht] at h
        · rw [exceptBind_error] at h
          exact absurd h (by simp)
        · rw [exceptBind_ok] at h
          have h2 : Except.ok (rs ++ vs) = Except.ok results := h
          injection h2 with h1
          rw [← h1] at hr
          rcases List.mem_append.mp hr with hrs | hvs
          · obtain ⟨kk, _, hR⟩ :=
              forall₂_mem_right (exceptMap_ok_forall₂ hp) r hrs
            exact ⟨oid, p, List.mem_cons_self _ _, kk, hR⟩
          · obtain ⟨oid2, p2, hmem, hk⟩ := ih ht r hvs
            exact ⟨oid2, p2, List.mem_cons_of_mem _ hmem, hk⟩

/-- Claim C4: the evaluator reads the category-id list once at
construction into contiguous_to_json_category (in store order), and every
formatted detection record carries category_id equal to the entry of that
table indexed by the local label. -/
theorem claim4_category_remapping {ε : Type} (loadFile : String → COCO)
    (h : Heap) (inp : CocoGtInput) (iou_type : String)
    (ev : COCOEvaluator ε)
    (hok : COCOEvaluator.mk0 loadFile h inp iou_type = .ok ev) :
    ev.contiguous_to_json_category = ev.coco_gt.getCatIds ∧
    ∀ preds results,
      prepare_for_coco_detection ev.contiguous_to_json_category preds =
        .ok results →
      ∀ r ∈ results, ∃ (oid : Int) (p : Prediction) (k : Nat),
        (oid, some p) ∈ preds ∧ r.image_id = oid ∧
        (∃ box, p.boxes[k]? = some box ∧ r.bbox = boxXyxyToXywh box) ∧
        (∃ s, p.scores[k]? = some s ∧ r.score = s) ∧
        (∃ label, p.labels[k]? = some label ∧
          ev.coco_gt.getCatIds[label]? = some r.category_id) := by
  have hcat : ev.contiguous_to_json_category = ev.coco_gt.getCatIds := by
    cases inp with
    | path p =>
      simp only [COCOEvaluator.mk0] at hok
      injection hok with h1
      rw [← h1]
    | handle a =>
      simp only [COCOEvaluator.mk0] at hok
      injection hok with h1
      rw [← h1]
    | other =>
      simp only [COCOEvaluator.mk0] at hok
      exact absurd hok (by simp)
  refine ⟨hcat, ?_⟩
  intro preds results hpp r hr
  obtain ⟨oid, p, hmem, kk, hk⟩ := prepare_for_coco_detection_ok_mem hpp r hr
  obtain ⟨h1, h2, h3, h4⟩ := mkDetectionRecord_ok_spec hk
  obtain ⟨label, hl, hc⟩ := h4
  exact ⟨oid, p, kk, hmem, h1, h2, h3, label, hl, hcat ▸ hc⟩

/-- Witness for claim C4 at a concretely constructed evaluator. -/
theorem claim4_witness :
    wEvaluatorH.contiguous_to_json_category =
      wEvaluatorH.coco_gt.getCatIds :=
  (claim4_category_remapping (fun _ => wCoco2) wHeap (.handle 0) "bbox"
    wEvaluatorH rfl).1

/-! ### Python dict semantics: repeated keys in one update batch -/

/-- Replacing the entry with a present key makes find? return the new
pair. -/
theorem find?_replace_self {π : Type} {k : Int} {v : π} :
    ∀ {d : List (Int × π)}, d.any (fun p => p.1 == k) = true →
      (d.map (fun p => if p.1 == k then (k, v) else p)).find?
        (fun p => p.1 == k) = some (k, v) := by
  intro d
  induction d with
  | nil => intro hany; simp at hany
  | cons hd tl ih =>
    intro hany
    rw [List.map_cons]
    by_cases hh : (hd.1 == k : Bool)
    · rw [if_pos hh]
      exact List.find?_cons_of_pos (p := fun q : Int × π => q.1 == k) _ (by simp)
    · rw [if_neg hh]
      rw [List.find?_cons_of_neg (p := fun q : Int × π => q.1 == k) _ hh]
      refine ih ?_
      rw [List.any_cons] at hany
      simpa [hh] using hany

/-- Replacing the entry with one key does not change what find? sees for a
different key. -/
theorem find?_replace_ne {π : Type} {k k2 : Int} (hne : k2 ≠ k) :
    ∀ (d : List (Int × π)) (v : π),
      (d.map (fun p => if p.1 == k then (k, v) else p)).find?
        (fun p => p.1 == k2) = d.find? (fun p => p.1 == k2) := by
  intro d
  induction d with
  | nil => intro v; rfl
  | cons hd tl ih =>
    intro v
    rw [List.map_cons]
    by_cases hh : (hd.1 == k : Bool)
    · have h1 : hd.1 = k := by simpa using hh
      rw [if_pos hh]
      rw [List.find?_cons_of_neg (p := fun q : Int × π => q.1 == k2) _
            (by simp [Ne.symm hne]),
          List.find?_cons_of_neg (p := fun q : Int × π => q.1 == k2) _
            (by simp [h1, Ne.symm hne])]
      exact ih v
    · rw [if_neg hh]
      by_cases hh2 : (hd.1 == k2 : Bool)
      · rw [List.find?_cons_of_pos (p := fun q : Int × π => q.1 == k2) _ hh2,
            List.find?_cons_of_pos (p := fun q : Int × π => q.1 == k2) _ hh2]
      · rw [List.find?_cons_of_neg (p := fun q : Int × π => q.1 == k2) _ hh2,
            List.find?_cons_of_neg (p := fun q : Int × π => q.1 == k2) _ hh2]
        exact ih v

/-- Looking up the key just written returns the written value. -/
theorem dictLookup_dictInsert_self {π : Type} (d : List (Int × π))
    (k : Int) (v : π) : dictLookup (dictInsert d k v) k = some v := by
  rw [dictInsert]
  by_cases hany : d.any (fun p => p.1 == k)
  · rw [if_pos hany, dictLookup, find?_replace_self hany]
    rfl
  · rw [if_neg hany, dictLookup, List.find?_append]
    have hnone : d.find? (fun p => p.1 == k) = none := by
      rw [List.find?_eq_none]
      intro p hp hcontra
      exact hany (List.any_eq_true.mpr ⟨p, hp, hcontra⟩)
    rw [hnone, Option.none_or]
    rw [List.find?_cons_of_pos _ (by simp)]
    rfl

/-- Looking up a different key is unaffected by a dict write. -/
theorem dictLookup_dictInsert_ne {π : Type} {k k2 : Int} (hne : k2 ≠ k)
    (d : List (Int × π)) (v : π) :
    dictLookup (dictInsert d k v) k2 = dictLookup d k2 := by
  rw [dictInsert]
  by_cases hany : d.any (fun p => p.1 == k)
  · rw [if_pos hany, dictLookup, dictLookup, find?_replace_ne hne d v]
  · rw [if_neg hany, dictLookup, List.find?_append, dictLookup]
    have h2 : ([(k, v)].find? (fun p => p.1 == k2)) = none := by
      rw [List.find?_eq_none]
      intro p hp hcontra
      rw [List.mem_singleton] at hp
      subst hp
      have hkk : k = k2 := by simpa using hcontra
      exact hne hkk.symm
    rw [h2, Option.or_none]

/-- The key list after a dict write: unchanged when the key was present,
extended by the key otherwise. -/
theorem map_fst_dictInsert {π : Type} (d : List (Int × π)) (k : Int)
    (v : π) :
    (dictInsert d k v).map Prod.fst =
      if d.any (fun p => p.1 == k) then d.map Prod.fst
      else d.map Prod.fst ++ [k] := by
  rw [dictInsert]
  by_cases hany : d.any (fun p => p.1 == k)
  · rw [if_pos hany, if_pos hany, List.map_map]
    apply List.map_congr_left
    intro p hp
    by_cases hh : (p.1 == k : Bool)
    · have h1 : p.1 = k := by simpa using hh
      simp only [Function.comp]
      rw [if_pos hh, h1]
    · simp only [Function.comp]
      rw [if_neg hh]
  · rw [if_neg hany, if_neg hany, List.map_append]
    rfl

/-- A dict write keeps the key list duplicate-free. -/
theorem nodup_map_fst_dictInsert {π : Type} {d : List (Int × π)}
    (k : Int) (v : π) (hd : (d.map Prod.fst).Nodup) :
    ((dictInsert d k v).map Prod.fst).Nodup := by
  rw [map_fst_dictInsert]
  by_cases hany : d.any (fun p => p.1 == k)
  · rw [if_pos hany]; exact hd
  · rw [if_neg hany]
    have hk : k ∉ d.map Prod.fst := by
      intro hmem
      obtain ⟨p, hp, hpk⟩ := List.mem_map.mp hmem
      exact hany (List.any_eq_true.mpr ⟨p, hp, by simp [hpk]⟩)
    simp [List.nodup_append, hd, hk]

/-- The keys of a dict built by successive writes are duplicate-free. -/
theorem nodup_keys_foldl_dictInsert {π : Type} :
    ∀ (l : List (Int × π)) (d : List (Int × π)),
      (d.map Prod.fst).Nodup →
      ((l.foldl (fun d2 tp => dictInsert d2 tp.1 tp.2) d).map
        Prod.fst).Nodup := by
  intro l
  induction l with
  | nil => intro d hnd; exact hnd
  | cons hd tl ih =>
    intro d hnd
    exact ih _ (nodup_map_fst_dictInsert _ _ hnd)

/-- Folding dict writes over a pair list: the final lookup of a key is the
value at the LAST occurrence of the key, falling back to the initial dict
when the key never occurs. -/
theorem dictLookup_foldl_dictInsert {π : Type} (k : Int) :
    ∀ (l : List (Int × π)) (d : List (Int × π)),
      dictLookup (l.foldl (fun d2 tp => dictInsert d2 tp.1 tp.2) d) k =
        match (l.filter (fun q => q.1 == k)).getLast? with
        | some q => some q.2
        | none => dictLookup d k := by
  intro l
  induction l with
  | nil => intro d; rfl
  | cons hd tl ih =>
    intro d
    rw [List.foldl_cons, ih (dictInsert d hd.1 hd.2)]
    by_cases hh : (hd.1 == k : Bool)
    · have h1 : hd.1 = k := by simpa using hh
      rw [List.filter_cons_of_pos (p := fun q : Int × π => q.1 == k) hh]
      rcases hfl : tl.filter (fun q => q.1 == k) with _ | ⟨q0, t⟩
      · rw [hfl]
        have hsing : ([hd] : List (Int × π)).getLast? = some hd := rfl
        rw [hsing]
        have hlook : dictLookup (dictInsert d hd.1 hd.2) k = some hd.2 := by
          rw [h1, dictLookup_dictInsert_self]
        rw [hlook]
        rfl
      · rw [hfl, List.getLast?_cons_cons]
        rcases hgl : (q0 :: t).getLast? with _ | q
        · exact absurd (List.getLast?_eq_none_iff.mp hgl) (by simp)
        · rfl
    · rw [List.filter_cons_of_neg (p := fun q : Int × π => q.1 == k) hh]
      rcases hfl : tl.filter (fun q => q.1 == k) with _ | ⟨q0, t⟩
      · rw [hfl]
        refine dictLookup_dictInsert_ne ?_ d hd.2
        intro hcontra
        rw [hcontra] at hh
        simp at hh
      · rw [hfl]
        rcases hgl : (q0 :: t).getLast? with _ | q
        · exact absurd (List.getLast?_eq_none_iff.mp hgl) (by simp)
        · rfl

/-- A successful dict lookup means the key is among the keys. -/
theorem mem_keys_of_dictLookup {π : Type} {d : List (Int × π)} {k : Int}
    {x : π} (h : dictLookup d k = some x) : k ∈ d.map Prod.fst := by
  rw [dictLookup] at h
  rcases hf : d.find? (fun p => p.1 == k) with _ | q
  · rw [hf] at h; simp at h
  · have hq : q.1 = k := by simpa using List.find?_some hf
    have hqm := List.mem_of_find?_eq_some hf
    exact hq ▸ List.mem_map_of_mem Prod.fst hqm

/-- Claim C9: a single update batch containing two targets with the same
image id raises no error; the record dict keeps the prediction paired with
the last occurrence of that id, the id enters the appended image-id
segment exactly once, and the evaluation consumes exactly the prepared
records of that deduplicated dict (so only the last prediction is
evaluated for the image). -/
theorem claim9_duplicate_image_ids {ε : Type}
    (evaluateFn : List Int → List DetectionRecord → List ε)
    (st : COCOEvaluator ε) (preds : List (Option Prediction))
    (targets : List Int) (i j : Nat) (idv : Int)
    (_hi : targets[i]? = some idv) (hj : targets[j]? = some idv)
    (_hij : i < j) (hjp : j < preds.length)
    (results : List DetectionRecord)
    (hprep : prepare st.contiguous_to_json_category st.iou_type
      (buildRecords targets preds) = .ok results) :
    COCOEvaluator.update evaluateFn st preds targets = .ok
      { st with
        img_ids := st.img_ids ++
          sortedUnique ((buildRecords targets preds).map Prod.fst),
        eval_imgs := st.eval_imgs ++
          [evaluateFn
            (sortedUnique ((buildRecords targets preds).map Prod.fst))
            results] } ∧
    ((buildRecords targets preds).map Prod.fst).Nodup ∧
    (sortedUnique ((buildRecords targets preds).map Prod.fst)).count idv
      = 1 ∧
    dictLookup (buildRecords targets preds) idv =
      ((targets.zip preds).filter (fun q => q.1 == idv)).getLast?.map
        Prod.snd := by
  have hjt : j < targets.length := by
    have := List.getElem?_eq_some_iff.mp hj
    exact this.1
  have hzip : (targets.zip preds)[j]? = some (idv, preds[j]) :=
    List.getElem?_zip_eq_some.mpr ⟨hj, List.getElem?_eq_getElem hjp⟩
  have hzmem : (idv, preds[j]) ∈ targets.zip preds := List.getElem?_mem hzip
  have hfmem : (idv, preds[j]) ∈
      (targets.zip preds).filter (fun q => q.1 == idv) :=
    List.mem_filter.mpr ⟨hzmem, by simp⟩
  have hfne : (targets.zip preds).filter (fun q => q.1 == idv) ≠ [] :=
    List.ne_nil_of_mem hfmem
  have hlast : ∃ q, ((targets.zip preds).filter
      (fun q => q.1 == idv)).getLast? = some q := by
    rcases hgl : ((targets.zip preds).filter
        (fun q => q.1 == idv)).getLast? with _ | q
    · exact absurd (List.getLast?_eq_none_iff.mp hgl) hfne
    · exact ⟨q, hgl⟩
  obtain ⟨q, hq⟩ := hlast
  have hlook : dictLookup (buildRecords targets preds) idv = some q.2 := by
    rw [buildRecords, dictLookup_foldl_dictInsert, hq]
  have hmemkeys : idv ∈ (buildRecords targets preds).map Prod.fst :=
    mem_keys_of_dictLookup hlook
  refine ⟨?_, ?_, ?_, ?_⟩
  · rw [COCOEvaluator.update]
    show (prepare st.contiguous_to_json_category st.iou_type
        (buildRecords targets preds) >>= _) = _
    rw [hprep, exceptBind_ok]
  · exact nodup_keys_foldl_dictInsert _ [] (by simp)
  · exact List.count_eq_one_of_mem (sortedUnique_nodup _)
      (mem_sortedUnique.mpr hmemkeys)
  · rw [hlook, hq]
    rfl

/-- Witness for claim C9: a batch whose two targets both carry image id
42; the kept record is the second prediction and the id is listed once. -/
theorem claim9_witness :
    COCOEvaluator.update wEvalFn wEvaluatorH [none, none] [42, 42] = .ok
      { wEvaluatorH with
        img_ids := wEvaluatorH.img_ids ++
          sortedUnique ((buildRecords [42, 42]
            ([none, none] : List (Option Prediction))).map Prod.fst),
        eval_imgs := wEvaluatorH.eval_imgs ++
          [wEvalFn
            (sortedUnique ((buildRecords [42, 42]
              ([none, none] : List (Option Prediction))).map Prod.fst))
            []] } ∧
    ((buildRecords [42, 42]
      ([none, none] : List (Option Prediction))).map Prod.fst).Nodup ∧
    (sortedUnique ((buildRecords [42, 42]
      ([none, none] : List (Option Prediction))).map Prod.fst)).count 42
      = 1 ∧
    dictLookup (buildRecords [42, 42]
        ([none, none] : List (Option Prediction))) 42 =
      (([42, 42].zip ([none, none] : List (Option Prediction))).filter
        (fun q => q.1 == 42)).getLast?.map Prod.snd :=
  claim9_duplicate_image_ids wEvalFn wEvaluatorH
    [none, none] [42, 42] 0 1 42 (by decide) (by decide) (by decide)
    (by decide) [] rfl

end Yolort
